import Mathlib

/-!
# StackAllocator: a fixed-capacity bump allocator

Shallow embedding of `include/stack_allocator.hpp`.

* `StackAllocator T ELEMENTS` is the class: the array `data` and the index `next`.
* `std::size_t` is an unsigned machine word of `w` bits; arithmetic on it is
  arithmetic on `Nat` reduced modulo `2 ^ w`.  The word width is a parameter of
  every operation that computes on `std::size_t`.
* `ELEMENTS` is an `int` template argument that sizes an array, so it is a
  natural number that fits a machine word; theorems that need this take
  `ELEMENTS < 2 ^ w` as a hypothesis.
* A `T *` is a `Ptr`: null, the address of `data[i]`, or some address outside
  the arena.
-/

namespace StackAlloc

/-- A value of type `T *` as seen from one arena. -/
inductive Ptr where
  /-- The value `nullptr`. -/
  | null : Ptr
  /-- The address `&(data[index])` inside this arena's array. -/
  | elem (index : Nat) : Ptr
  /-- An address that does not point into this arena's array. -/
  | foreign (addr : Nat) : Ptr
  deriving DecidableEq, Repr

/-- The class `StackAllocator<T, ELEMENTS>`: members `T data[ELEMENTS]` and
`std::size_t next`. -/
structure StackAllocator (T : Type) (ELEMENTS : Nat) where
  /-- The data store `T data[ELEMENTS]`. -/
  data : Fin ELEMENTS → T
  /-- The index `next`: the next item to return from `allocate`. -/
  next : Nat

/-- The constructor `StackAllocator() : next{0} {}`.  The array is left as it
is found; its contents are the argument `garbage`. -/
def StackAllocator.construct {T : Type} {ELEMENTS : Nat} (garbage : Fin ELEMENTS → T) :
    StackAllocator T ELEMENTS :=
  { data := garbage, next := 0 }

/-- The member template `rebind<U>::other`, which is `StackAllocator<U, ELEMENTS>`. -/
abbrev StackAllocator.rebind (_T : Type) (ELEMENTS : Nat) (U : Type) : Type :=
  StackAllocator U ELEMENTS

/-- The member function `allocate(std::size_t size)`: the returned pointer and the
object after the call.

```
if (next + size > ELEMENTS) { return nullptr; }
T *retval = &(data[next]);
next += size;
return retval;
```

Both `next + size` and `next += size` are computed in `std::size_t`, that is,
modulo `2 ^ w`.  For the comparison `ELEMENTS` is converted to `std::size_t`,
which keeps its value: it is an array bound, so it is not negative and it fits. -/
def StackAllocator.allocate {T : Type} {ELEMENTS : Nat} (w : Nat)
    (a : StackAllocator T ELEMENTS) (size : Nat) : Ptr × StackAllocator T ELEMENTS :=
  if (a.next + size) % 2 ^ w > ELEMENTS then
    (Ptr.null, a)
  else
    (Ptr.elem a.next, { a with next := (a.next + size) % 2 ^ w })

/-- The member function `deallocate(T *ptr, std::size_t)`: its body is empty, so
the object after the call is the object before it. -/
def StackAllocator.deallocate {T : Type} {ELEMENTS : Nat}
    (a : StackAllocator T ELEMENTS) (_ptr : Ptr) (_size : Nat) : StackAllocator T ELEMENTS :=
  a

/-- One call made on an arena by its user. -/
inductive Op where
  /-- A call `allocate(size)`. -/
  | allocate (size : Nat) : Op
  /-- A call `deallocate(ptr, size)`. -/
  | deallocate (ptr : Ptr) (size : Nat) : Op
  deriving DecidableEq, Repr

/-- Whether a call is a call of `allocate`. -/
def Op.isAllocate : Op → Bool
  | Op.allocate _ => true
  | Op.deallocate _ _ => false

/-- Runs a sequence of calls on an arena, in order.  The first component lists,
for every `allocate` call, the requested size and the pointer returned; the
second is the arena after the last call. -/
def exec {T : Type} {ELEMENTS : Nat} (w : Nat) :
    StackAllocator T ELEMENTS → List Op → List (Nat × Ptr) × StackAllocator T ELEMENTS
  | a, [] => ([], a)
  | a, Op.allocate size :: ops =>
    let r := a.allocate w size
    let rest := exec w r.2 ops
    ((size, r.1) :: rest.1, rest.2)
  | a, Op.deallocate ptr size :: ops => exec w (a.deallocate ptr size) ops

/-- The regions handed out in a run: for every `allocate` call that returned
`&(data[o])` for a request of `n` elements, the pair `(o, n)` standing for the
index range `[o, o + n)`. -/
def regions : List (Nat × Ptr) → List (Nat × Nat)
  | [] => []
  | (n, Ptr.elem o) :: rest => (o, n) :: regions rest
  | (_, _) :: rest => regions rest

/-- Two index ranges `[o₁, o₁ + n₁)` and `[o₂, o₂ + n₂)` share an index. -/
def overlap (r s : Nat × Nat) : Prop :=
  max r.1 s.1 < min (r.1 + r.2) (s.1 + s.2)

instance (r s : Nat × Nat) : Decidable (overlap r s) := by
  unfold overlap; infer_instance

/-- An arena of 4 `int`s, freshly constructed over a zeroed array. -/
def arena4 : StackAllocator Int 4 := StackAllocator.construct (fun _ => 0)

/-- The arena `arena4` after one successful `allocate(1)` on a 64-bit platform:
`next = 1`. -/
def arena4_used1 : StackAllocator Int 4 := (arena4.allocate 64 1).2

/-- The values of `next` along a run: before the first call and after every call. -/
def nextTrace {T : Type} {ELEMENTS : Nat} (w : Nat) :
    StackAllocator T ELEMENTS → List Op → List Nat
  | a, [] => [a.next]
  | a, op :: ops => a.next :: nextTrace w (exec w a [op]).2 ops

/-- No `allocate` call of the run wraps around: at every call `allocate(size)` the
sum `next + size` is below `2 ^ w`, so the machine sum is the exact sum. -/
def noWrap {T : Type} {ELEMENTS : Nat} (w : Nat) :
    StackAllocator T ELEMENTS → List Op → Prop
  | _, [] => True
  | a, Op.allocate size :: ops => a.next + size < 2 ^ w ∧ noWrap w (a.allocate w size).2 ops
  | a, Op.deallocate ptr size :: ops => noWrap w (a.deallocate ptr size) ops

/-- Which of two arenas a call is made on: the arena of `T` or the arena of the
rebound type `rebind<U>::other`. -/
inductive Side where
  | original : Side
  | rebound : Side
  deriving DecidableEq, Repr

/-- The calls of a two-arena run that are made on the given arena. -/
def callsOn (side : Side) : List (Side × Op) → List Op
  | [] => []
  | (s, op) :: rest => if s = side then op :: callsOn side rest else callsOn side rest

/-- Runs a sequence of calls on two arena objects, each call on the object it
names.  Every object has its own members `data` and `next`. -/
def execBoth {T U : Type} {ELEMENTS : Nat} (w : Nat) :
    StackAllocator T ELEMENTS × StackAllocator.rebind T ELEMENTS U → List (Side × Op) →
      StackAllocator T ELEMENTS × StackAllocator.rebind T ELEMENTS U
  | p, [] => p
  | p, (Side.original, op) :: rest => execBoth w ((exec w p.1 [op]).2, p.2) rest
  | p, (Side.rebound, op) :: rest => execBoth w (p.1, (exec w p.2 [op]).2) rest

/-- The constant `ALLOCATOR_SIZE` of `main.cpp`: `1024 * 1024`. -/
def ALLOCATOR_SIZE : Nat := 1024 * 1024

/-- Modelled from the spec: the growth policy of the vector-like container, which
is code of the standard library and not of this repository.  A container of
capacity `cap` that has to hold `m` elements and cannot requests a fresh block of
`cap + max cap 1` elements (1 for an empty container, double the capacity
otherwise), which becomes its capacity, until `m ≤ cap`.  The result lists the
sizes requested, in order.  `fuel` bounds the number of requests. -/
def growthRequestsFrom : Nat → Nat → Nat → List Nat
  | 0, _, _ => []
  | fuel + 1, cap, m =>
    if m ≤ cap then [] else (cap + max cap 1) :: growthRequestsFrom fuel (cap + max cap 1) m

/-- Modelled from the spec: the sizes an initially empty vector-like container
requests until it can hold `m` elements: 1, 2, 4, ....  The capacity grows by at
least 1 with every request, so `m` requests are enough fuel. -/
def growthRequests (m : Nat) : List Nat := growthRequestsFrom m 0 m

/-! ## Single calls -/

theorem allocate_of_le {T : Type} {ELEMENTS : Nat} (w : Nat)
    (a : StackAllocator T ELEMENTS) (size : Nat)
    (h : (a.next + size) % 2 ^ w ≤ ELEMENTS) :
    a.allocate w size = (Ptr.elem a.next, { a with next := (a.next + size) % 2 ^ w }) := by
  unfold StackAllocator.allocate
  rw [if_neg (Nat.not_lt.mpr h)]

theorem allocate_of_gt {T : Type} {ELEMENTS : Nat} (w : Nat)
    (a : StackAllocator T ELEMENTS) (size : Nat)
    (h : ELEMENTS < (a.next + size) % 2 ^ w) :
    a.allocate w size = (Ptr.null, a) := by
  unfold StackAllocator.allocate
  rw [if_pos h]

/-- C1: with `next + size ≤ ELEMENTS`, `allocate(size)` does not return null: it
returns `&(data[next])` for the value of `next` before the call, and `next` after
the call is `next + size`; the array is untouched. -/
theorem allocate_success {T : Type} {ELEMENTS : Nat} (w : Nat)
    (a : StackAllocator T ELEMENTS) (size : Nat)
    (hE : ELEMENTS < 2 ^ w) (hfit : a.next + size ≤ ELEMENTS) :
    (a.allocate w size).1 ≠ Ptr.null ∧
    (a.allocate w size).1 = Ptr.elem a.next ∧
    (a.allocate w size).2.next = a.next + size ∧
    (a.allocate w size).2.data = a.data := by
  have hmod : (a.next + size) % 2 ^ w = a.next + size :=
    Nat.mod_eq_of_lt (lt_of_le_of_lt hfit hE)
  have hle : (a.next + size) % 2 ^ w ≤ ELEMENTS := by rw [hmod]; exact hfit
  rw [allocate_of_le w a size hle, hmod]
  exact ⟨by simp, rfl, rfl, rfl⟩

theorem allocate_success_witness :
    (StackAllocator.allocate 64 (⟨fun _ => 0, 1⟩ : StackAllocator Int 4) 2).1 ≠ Ptr.null ∧
    (StackAllocator.allocate 64 (⟨fun _ => 0, 1⟩ : StackAllocator Int 4) 2).1 = Ptr.elem 1 ∧
    (StackAllocator.allocate 64 (⟨fun _ => 0, 1⟩ : StackAllocator Int 4) 2).2.next = 1 + 2 ∧
    (StackAllocator.allocate 64 (⟨fun _ => 0, 1⟩ : StackAllocator Int 4) 2).2.data
      = fun _ => 0 :=
  allocate_success 64 (⟨fun _ => 0, 1⟩ : StackAllocator Int 4) 2 (by decide) (by decide)

/-- Without wrap-around (`next + size < 2 ^ w`) a request that does not fit is
refused: `allocate` returns null and the arena is unchanged. -/
theorem allocate_exhausted_of_no_wrap {T : Type} {ELEMENTS : Nat} (w : Nat)
    (a : StackAllocator T ELEMENTS) (size : Nat)
    (hw : a.next + size < 2 ^ w) (hfull : ELEMENTS < a.next + size) :
    a.allocate w size = (Ptr.null, a) := by
  apply allocate_of_gt
  rw [Nat.mod_eq_of_lt hw]
  exact hfull

/-- C2: at `next = 1`, a request of `2 ^ 64 - 1` elements on an arena of 4 elements
(64-bit `std::size_t`) has `next + size = 2 ^ 64 > ELEMENTS`, and yet `allocate`
returns `&(data[1])`, not null, and sets `next` to 0.  Repeating the same call
then returns null: the two results differ. -/
theorem allocate_max_size_not_refused :
    arena4_used1.next = 1 ∧
    arena4_used1.next + (2 ^ 64 - 1) > 4 ∧
    (arena4_used1.allocate 64 (2 ^ 64 - 1)).1 = Ptr.elem 1 ∧
    (arena4_used1.allocate 64 (2 ^ 64 - 1)).2.next = 0 ∧
    (((arena4_used1.allocate 64 (2 ^ 64 - 1)).2).allocate 64 (2 ^ 64 - 1)).1 = Ptr.null := by
  decide

/-! ## Runs -/

theorem exec_nil {T : Type} {ELEMENTS : Nat} (w : Nat) (a : StackAllocator T ELEMENTS) :
    exec w a [] = ([], a) := rfl

theorem exec_allocate_cons {T : Type} {ELEMENTS : Nat} (w : Nat)
    (a : StackAllocator T ELEMENTS) (size : Nat) (ops : List Op) :
    exec w a (Op.allocate size :: ops) =
      ((size, (a.allocate w size).1) :: (exec w (a.allocate w size).2 ops).1,
        (exec w (a.allocate w size).2 ops).2) := rfl

theorem exec_deallocate_cons {T : Type} {ELEMENTS : Nat} (w : Nat)
    (a : StackAllocator T ELEMENTS) (ptr : Ptr) (size : Nat) (ops : List Op) :
    exec w a (Op.deallocate ptr size :: ops) = exec w a ops := rfl

theorem regions_cons_elem (n o : Nat) (rest : List (Nat × Ptr)) :
    regions ((n, Ptr.elem o) :: rest) = (o, n) :: regions rest := rfl

theorem regions_cons_null (n : Nat) (rest : List (Nat × Ptr)) :
    regions ((n, Ptr.null) :: rest) = regions rest := rfl

/-- The state after a call of `allocate` that fits and does not wrap. -/
theorem allocate_fits {T : Type} {ELEMENTS : Nat} (w : Nat)
    (a : StackAllocator T ELEMENTS) (size : Nat)
    (hE : ELEMENTS < 2 ^ w) (hfit : a.next + size ≤ ELEMENTS) :
    a.allocate w size = (Ptr.elem a.next, { a with next := a.next + size }) := by
  have hmod : (a.next + size) % 2 ^ w = a.next + size :=
    Nat.mod_eq_of_lt (lt_of_le_of_lt hfit hE)
  have hle : (a.next + size) % 2 ^ w ≤ ELEMENTS := by rw [hmod]; exact hfit
  rw [allocate_of_le w a size hle, hmod]

/-- In a run of `allocate` calls whose sizes fit into what is left of the arena,
the call number `i` returns `&(data[next + n_1 + ... + n_(i-1)])`. -/
theorem exec_allocate_all_getElem {T : Type} {ELEMENTS : Nat} (w : Nat)
    (hE : ELEMENTS < 2 ^ w) (ns : List Nat) :
    ∀ (a : StackAllocator T ELEMENTS), a.next + ns.sum ≤ ELEMENTS →
      ∀ (i n : Nat), ns[i]? = some n →
        (exec w a (ns.map Op.allocate)).1[i]? =
          some (n, Ptr.elem (a.next + (ns.take i).sum)) := by
  induction ns with
  | nil => intro a _ i n h; simp at h
  | cons m ns ih =>
    intro a hsum i n h
    rw [List.sum_cons] at hsum
    rw [List.map_cons, exec_allocate_cons, allocate_fits w a m hE (by omega)]
    cases i with
    | zero =>
      simp only [List.getElem?_cons_zero, Option.some.injEq] at h
      simp [h]
    | succ i =>
      simp only [List.getElem?_cons_succ] at h
      have := ih { a with next := a.next + m } (by show a.next + m + ns.sum ≤ ELEMENTS; omega) i n h
      simp only [List.getElem?_cons_succ, List.take_succ_cons, List.sum_cons]
      rw [this]
      simp only [Nat.add_assoc]

theorem exec_allocate_all_length {T : Type} {ELEMENTS : Nat} (w : Nat) (ns : List Nat) :
    ∀ (a : StackAllocator T ELEMENTS), (exec w a (ns.map Op.allocate)).1.length = ns.length := by
  induction ns with
  | nil => intro a; rfl
  | cons m ns ih =>
    intro a
    rw [List.map_cons, exec_allocate_cons]
    simp [ih]

/-- In a run of `allocate` calls whose sizes fit into what is left of the arena,
no call wraps around. -/
theorem noWrap_of_sum_le {T : Type} {ELEMENTS : Nat} (w : Nat)
    (hE : ELEMENTS < 2 ^ w) (ns : List Nat) :
    ∀ (a : StackAllocator T ELEMENTS), a.next + ns.sum ≤ ELEMENTS →
      noWrap w a (ns.map Op.allocate) := by
  induction ns with
  | nil => intro a _; trivial
  | cons m ns ih =>
    intro a hsum
    rw [List.sum_cons] at hsum
    refine ⟨by omega, ?_⟩
    rw [allocate_fits w a m hE (by omega)]
    exact ih _ (by show a.next + m + ns.sum ≤ ELEMENTS; omega)

/-- In a run of `allocate` calls whose sizes fit into what is left of the arena,
the regions handed out are, in order, those of the requests. -/
theorem regions_exec_allocate_all {T : Type} {ELEMENTS : Nat} (w : Nat)
    (hE : ELEMENTS < 2 ^ w) (ns : List Nat) :
    ∀ (a : StackAllocator T ELEMENTS), a.next + ns.sum ≤ ELEMENTS →
      ∀ (i n : Nat), ns[i]? = some n →
        (regions (exec w a (ns.map Op.allocate)).1)[i]? =
          some (a.next + (ns.take i).sum, n) := by
  induction ns with
  | nil => intro a _ i n h; simp at h
  | cons m ns ih =>
    intro a hsum i n h
    rw [List.sum_cons] at hsum
    rw [List.map_cons, exec_allocate_cons, allocate_fits w a m hE (by omega)]
    cases i with
    | zero =>
      simp only [List.getElem?_cons_zero, Option.some.injEq] at h
      simp [h, regions_cons_elem]
    | succ i =>
      simp only [List.getElem?_cons_succ] at h
      have := ih { a with next := a.next + m } (by show a.next + m + ns.sum ≤ ELEMENTS; omega) i n h
      simp only [regions_cons_elem, List.getElem?_cons_succ, List.take_succ_cons, List.sum_cons]
      rw [this]
      simp only [Nat.add_assoc]

/-- In a run without wrap-around the regions handed out start at or after the
value of `next` at the start of the run, and no two of them overlap. -/
theorem regions_disjoint_of_noWrap {T : Type} {ELEMENTS : Nat} (w : Nat) (ops : List Op) :
    ∀ (a : StackAllocator T ELEMENTS), noWrap w a ops →
      List.Pairwise (fun r s => ¬ overlap r s) (regions (exec w a ops).1) ∧
      ∀ r ∈ regions (exec w a ops).1, a.next ≤ r.1 := by
  induction ops with
  | nil => intro a _; simp [exec_nil, regions]
  | cons op ops ih =>
    intro a h
    cases op with
    | deallocate ptr size =>
      rw [exec_deallocate_cons]
      exact ih a h
    | allocate size =>
      obtain ⟨hw, hrest⟩ := h
      rw [exec_allocate_cons]
      by_cases hgt : ELEMENTS < (a.next + size) % 2 ^ w
      · rw [allocate_of_gt w a size hgt] at hrest ⊢
        rw [regions_cons_null]
        exact ih a hrest
      · have hle : (a.next + size) % 2 ^ w ≤ ELEMENTS := Nat.not_lt.mp hgt
        rw [allocate_of_le w a size hle, Nat.mod_eq_of_lt hw] at hrest ⊢
        obtain ⟨hpair, hlow⟩ := ih _ hrest
        rw [regions_cons_elem]
        refine ⟨List.pairwise_cons.mpr ⟨?_, hpair⟩, ?_⟩
        · intro r hr
          have := hlow r hr
          simp only [overlap] at this ⊢
          omega
        · intro r hr
          rcases List.mem_cons.mp hr with rfl | hr
          · exact le_refl _
          · have := hlow r hr
            simp only at this
            omega

/-- C3: on a freshly constructed arena, a run of requests `n_1, ..., n_k` with
`n_1 + ... + n_k ≤ ELEMENTS` has every call succeed, the call number `i` returning
`&(data[n_1 + ... + n_(i-1)])`, so that the regions handed out are the ranges
`[n_1 + ... + n_(i-1), n_1 + ... + n_i)`, and no two of these regions overlap. -/
theorem allocate_run_within_capacity {T : Type} {ELEMENTS : Nat} (w : Nat)
    (garbage : Fin ELEMENTS → T) (ns : List Nat)
    (hE : ELEMENTS < 2 ^ w) (hsum : ns.sum ≤ ELEMENTS) :
    (exec w (StackAllocator.construct garbage) (ns.map Op.allocate)).1.length = ns.length ∧
    (∀ (i n : Nat), ns[i]? = some n →
      (exec w (StackAllocator.construct garbage) (ns.map Op.allocate)).1[i]? =
        some (n, Ptr.elem (ns.take i).sum)) ∧
    (∀ (i n : Nat), ns[i]? = some n →
      (regions (exec w (StackAllocator.construct garbage) (ns.map Op.allocate)).1)[i]? =
        some ((ns.take i).sum, n)) ∧
    List.Pairwise (fun r s => ¬ overlap r s)
      (regions (exec w (StackAllocator.construct garbage) (ns.map Op.allocate)).1) := by
  have h0 : (StackAllocator.construct garbage).next + ns.sum ≤ ELEMENTS := by
    show 0 + ns.sum ≤ ELEMENTS
    omega
  refine ⟨exec_allocate_all_length w ns _, ?_, ?_, ?_⟩
  · intro i n h
    have := exec_allocate_all_getElem w hE ns (StackAllocator.construct garbage) h0 i n h
    rw [this]
    show some (n, Ptr.elem (0 + (ns.take i).sum)) = _
    rw [Nat.zero_add]
  · intro i n h
    have := regions_exec_allocate_all w hE ns (StackAllocator.construct garbage) h0 i n h
    rw [this]
    show some (0 + (ns.take i).sum, n) = _
    rw [Nat.zero_add]
  · exact (regions_disjoint_of_noWrap w _ _ (noWrap_of_sum_le w hE ns _ h0)).1

theorem allocate_run_within_capacity_witness :
    (4 : Nat) < 2 ^ 64 ∧ ([1, 2, 1] : List Nat).sum ≤ 4 ∧
    (exec 64 arena4 ([1, 2, 1].map Op.allocate)).1.length = 3 ∧
    (exec 64 arena4 ([1, 2, 1].map Op.allocate)).1[2]? = some (1, Ptr.elem 3) ∧
    (regions (exec 64 arena4 ([1, 2, 1].map Op.allocate)).1)[2]? = some (3, 1) ∧
    List.Pairwise (fun r s => ¬ overlap r s)
      (regions (exec 64 arena4 ([1, 2, 1].map Op.allocate)).1) :=
  have h := allocate_run_within_capacity 64 (fun _ : Fin 4 => (0 : Int)) [1, 2, 1]
    (by decide) (by decide)
  ⟨by decide, by decide, h.1, h.2.1 2 1 rfl, h.2.2.1 2 1 rfl, h.2.2.2⟩

/-! ## The invariant `next ≤ ELEMENTS` -/

theorem allocate_next_le {T : Type} {ELEMENTS : Nat} (w : Nat)
    (a : StackAllocator T ELEMENTS) (size : Nat) (h : a.next ≤ ELEMENTS) :
    (a.allocate w size).2.next ≤ ELEMENTS := by
  by_cases hgt : ELEMENTS < (a.next + size) % 2 ^ w
  · rw [allocate_of_gt w a size hgt]
    exact h
  · rw [allocate_of_le w a size (Nat.not_lt.mp hgt)]
    exact Nat.not_lt.mp hgt

theorem exec_next_le {T : Type} {ELEMENTS : Nat} (w : Nat) (ops : List Op) :
    ∀ (a : StackAllocator T ELEMENTS), a.next ≤ ELEMENTS → (exec w a ops).2.next ≤ ELEMENTS := by
  induction ops with
  | nil => intro a h; exact h
  | cons op ops ih =>
    intro a h
    cases op with
    | deallocate ptr size => rw [exec_deallocate_cons]; exact ih a h
    | allocate size =>
      rw [exec_allocate_cons]
      exact ih _ (allocate_next_le w a size h)

/-- C4: `0 ≤ next ≤ ELEMENTS` holds in every reachable state.  `next` is unsigned,
so `0 ≤ next` holds by its type.  `next ≤ ELEMENTS` holds after construction, is
kept by every call of `allocate`, for every size, whether the call succeeds or
not, and by every call of `deallocate`; so it holds after every run of calls on
a freshly constructed arena. -/
theorem next_le_ELEMENTS_always {T : Type} {ELEMENTS : Nat} (w : Nat) :
    (∀ (garbage : Fin ELEMENTS → T),
      0 ≤ (StackAllocator.construct garbage).next ∧
      (StackAllocator.construct garbage).next ≤ ELEMENTS) ∧
    (∀ (a : StackAllocator T ELEMENTS) (size : Nat), a.next ≤ ELEMENTS →
      0 ≤ (a.allocate w size).2.next ∧ (a.allocate w size).2.next ≤ ELEMENTS) ∧
    (∀ (a : StackAllocator T ELEMENTS) (ptr : Ptr) (size : Nat), a.next ≤ ELEMENTS →
      0 ≤ (a.deallocate ptr size).next ∧ (a.deallocate ptr size).next ≤ ELEMENTS) ∧
    (∀ (garbage : Fin ELEMENTS → T) (ops : List Op),
      0 ≤ (exec w (StackAllocator.construct garbage) ops).2.next ∧
      (exec w (StackAllocator.construct garbage) ops).2.next ≤ ELEMENTS) := by
  refine ⟨?_, ?_, ?_, ?_⟩
  · intro garbage
    exact ⟨Nat.zero_le _, Nat.zero_le _⟩
  · intro a size h
    exact ⟨Nat.zero_le _, allocate_next_le w a size h⟩
  · intro a ptr size h
    exact ⟨Nat.zero_le _, h⟩
  · intro garbage ops
    exact ⟨Nat.zero_le _, exec_next_le w ops _ (Nat.zero_le _)⟩

theorem next_le_ELEMENTS_always_witness :
    (arena4_used1.allocate 64 (2 ^ 64 - 1)).2.next ≤ 4 ∧
    (arena4_used1.deallocate Ptr.null 7).next ≤ 4 ∧
    (exec 64 arena4 [Op.allocate 3, Op.allocate 9, Op.deallocate (Ptr.elem 0) 3]).2.next ≤ 4 :=
  have h := @next_le_ELEMENTS_always Int 4 64
  ⟨(h.2.1 arena4_used1 (2 ^ 64 - 1) (by decide)).2,
    (h.2.2.1 arena4_used1 Ptr.null 7 (by decide)).2,
    (h.2.2.2 (fun _ => 0) [Op.allocate 3, Op.allocate 9, Op.deallocate (Ptr.elem 0) 3]).2⟩

/-! ## Regions of arbitrary runs -/

/-- When every requested size `size` of a run has `ELEMENTS + size < 2 ^ w`, no call
of the run wraps around, from any state with `next ≤ ELEMENTS`. -/
theorem noWrap_of_small_sizes {T : Type} {ELEMENTS : Nat} (w : Nat) (ops : List Op)
    (hsmall : ∀ size, Op.allocate size ∈ ops → ELEMENTS + size < 2 ^ w) :
    ∀ (a : StackAllocator T ELEMENTS), a.next ≤ ELEMENTS → noWrap w a ops := by
  induction ops with
  | nil => intro a _; trivial
  | cons op ops ih =>
    have hrest : ∀ size, Op.allocate size ∈ ops → ELEMENTS + size < 2 ^ w :=
      fun size hmem => hsmall size (List.mem_cons_of_mem _ hmem)
    intro a h
    cases op with
    | deallocate ptr size => exact ih hrest a h
    | allocate size =>
      have hs := hsmall size (List.mem_cons_self _ _)
      exact ⟨by omega, ih hrest _ (allocate_next_le w a size h)⟩

/-- Without wrap-around, any two regions handed out in a run of `allocate` and
`deallocate` calls on a freshly constructed arena are disjoint. -/
theorem regions_disjoint_of_small_sizes {T : Type} {ELEMENTS : Nat} (w : Nat)
    (garbage : Fin ELEMENTS → T) (ops : List Op)
    (hsmall : ∀ size, Op.allocate size ∈ ops → ELEMENTS + size < 2 ^ w) :
    List.Pairwise (fun r s => ¬ overlap r s)
      (regions (exec w (StackAllocator.construct garbage) ops).1) :=
  (regions_disjoint_of_noWrap w ops _
    (noWrap_of_small_sizes w ops hsmall _ (Nat.zero_le _))).1

/-- C5: on a fresh arena of 4 elements (64-bit `std::size_t`) the calls
`allocate(1)`, `allocate(2 ^ 64 - 1)`, `allocate(1)` all succeed and return
`&(data[0])`, `&(data[1])`, `&(data[0])`: the third call hands out the region
`[0, 1)` that the first call has handed out, and the second region `[1, 2 ^ 64)`
contains every index above 0. -/
theorem region_reissued_after_wrap :
    (exec 64 arena4 [Op.allocate 1, Op.allocate (2 ^ 64 - 1), Op.allocate 1]).1 =
      [(1, Ptr.elem 0), (2 ^ 64 - 1, Ptr.elem 1), (1, Ptr.elem 0)] ∧
    regions (exec 64 arena4 [Op.allocate 1, Op.allocate (2 ^ 64 - 1), Op.allocate 1]).1 =
      [(0, 1), (1, 2 ^ 64 - 1), (0, 1)] ∧
    overlap (0, 1) (0, 1) ∧
    ¬ List.Pairwise (fun r s => ¬ overlap r s)
      (regions (exec 64 arena4 [Op.allocate 1, Op.allocate (2 ^ 64 - 1), Op.allocate 1]).1) := by
  decide

/-! ## Monotonicity of `next` -/

/-- Without wrap-around (`next + size < 2 ^ w`) a call of `allocate` does not
decrease `next`. -/
theorem allocate_next_mono_of_no_wrap {T : Type} {ELEMENTS : Nat} (w : Nat)
    (a : StackAllocator T ELEMENTS) (size : Nat) (hw : a.next + size < 2 ^ w) :
    a.next ≤ (a.allocate w size).2.next := by
  by_cases hgt : ELEMENTS < (a.next + size) % 2 ^ w
  · rw [allocate_of_gt w a size hgt]
  · rw [allocate_of_le w a size (Nat.not_lt.mp hgt), Nat.mod_eq_of_lt hw]
    exact Nat.le_add_right _ _

/-- C6: on a fresh arena of 4 elements (64-bit `std::size_t`) the calls
`allocate(1)`, `allocate(2 ^ 64 - 1)` take `next` through the values 0, 1, 0: the
second call succeeds and moves `next` from 1 back to 0. -/
theorem next_decreases_after_wrap :
    nextTrace 64 arena4 [Op.allocate 1, Op.allocate (2 ^ 64 - 1)] = [0, 1, 0] ∧
    (arena4_used1.allocate 64 (2 ^ 64 - 1)).2.next < arena4_used1.next ∧
    ¬ List.Pairwise (fun m n => m ≤ n)
      (nextTrace 64 arena4 [Op.allocate 1, Op.allocate (2 ^ 64 - 1)]) := by
  decide

/-! ## `deallocate` -/

theorem exec_filter_isAllocate {T : Type} {ELEMENTS : Nat} (w : Nat) (ops : List Op) :
    ∀ (a : StackAllocator T ELEMENTS), exec w a (ops.filter Op.isAllocate) = exec w a ops := by
  induction ops with
  | nil => intro a; rfl
  | cons op ops ih =>
    intro a
    cases op with
    | deallocate ptr size =>
      rw [exec_deallocate_cons]
      simpa [Op.isAllocate] using ih a
    | allocate size =>
      have hf : (Op.allocate size :: ops).filter Op.isAllocate =
          Op.allocate size :: ops.filter Op.isAllocate := by
        simp [Op.isAllocate]
      rw [hf, exec_allocate_cons, exec_allocate_cons, ih]

/-- C7: `deallocate(ptr, n)` has no effect, for any pointer (null, inside the arena,
or foreign) and any `n`: the arena after the call, its `next` and its `data`, is
the arena before the call.  So a run of calls returns from its `allocate` calls
the same pointers, and ends in the same arena, as the run with all its
`deallocate` calls left out; in particular an `allocate` that follows a
`deallocate` returns what it would have returned without it. -/
theorem deallocate_no_effect {T : Type} {ELEMENTS : Nat} (w : Nat)
    (a : StackAllocator T ELEMENTS) :
    (∀ (ptr : Ptr) (n : Nat), a.deallocate ptr n = a) ∧
    (∀ (ptr : Ptr) (n : Nat),
      (a.deallocate ptr n).next = a.next ∧ (a.deallocate ptr n).data = a.data) ∧
    (∀ (ptr : Ptr) (n size : Nat),
      (a.deallocate ptr n).allocate w size = a.allocate w size) ∧
    (∀ (ops : List Op), exec w a ops = exec w a (ops.filter Op.isAllocate)) :=
  ⟨fun _ _ => rfl, fun _ _ => ⟨rfl, rfl⟩, fun _ _ _ => rfl,
    fun ops => (exec_filter_isAllocate w ops a).symm⟩

/-! ## Rebinding -/

theorem exec_cons_state {T : Type} {ELEMENTS : Nat} (w : Nat)
    (a : StackAllocator T ELEMENTS) (op : Op) (ops : List Op) :
    (exec w a (op :: ops)).2 = (exec w (exec w a [op]).2 ops).2 := by
  cases op <;> rfl

theorem execBoth_eq {T U : Type} {ELEMENTS : Nat} (w : Nat) (calls : List (Side × Op)) :
    ∀ (p : StackAllocator T ELEMENTS × StackAllocator.rebind T ELEMENTS U),
      execBoth w p calls =
        ((exec w p.1 (callsOn Side.original calls)).2,
          (exec w p.2 (callsOn Side.rebound calls)).2) := by
  induction calls with
  | nil => intro p; rfl
  | cons c calls ih =>
    intro p
    obtain ⟨side, op⟩ := c
    cases side with
    | original =>
      have h1 : callsOn Side.original ((Side.original, op) :: calls) =
          op :: callsOn Side.original calls := by simp [callsOn]
      have h2 : callsOn Side.rebound ((Side.original, op) :: calls) =
          callsOn Side.rebound calls := by simp [callsOn]
      rw [h1, h2, exec_cons_state]
      exact ih _
    | rebound =>
      have h1 : callsOn Side.original ((Side.rebound, op) :: calls) =
          callsOn Side.original calls := by simp [callsOn]
      have h2 : callsOn Side.rebound ((Side.rebound, op) :: calls) =
          op :: callsOn Side.rebound calls := by simp [callsOn]
      rw [h1, h2, exec_cons_state w p.2]
      exact ih _

/-- C8: `rebind<U>::other` is `StackAllocator<U, ELEMENTS>` with the same
`ELEMENTS`; an object constructed from it has `next = 0` whatever the state of
an existing `StackAllocator<T, ELEMENTS>` object; and in a run of calls on the
two objects each object ends in the state its own calls alone lead to, so that
`allocate` calls on one of them leave `next` of the other unchanged. -/
theorem rebind_independent (T U : Type) (ELEMENTS w : Nat) :
    StackAllocator.rebind T ELEMENTS U = StackAllocator U ELEMENTS ∧
    (∀ (_a : StackAllocator T ELEMENTS) (garbage : Fin ELEMENTS → U),
      (StackAllocator.construct garbage : StackAllocator.rebind T ELEMENTS U).next = 0) ∧
    (∀ (a : StackAllocator T ELEMENTS) (b : StackAllocator.rebind T ELEMENTS U)
        (calls : List (Side × Op)),
      (execBoth w (a, b) calls).1 = (exec w a (callsOn Side.original calls)).2 ∧
      (execBoth w (a, b) calls).2 = (exec w b (callsOn Side.rebound calls)).2) ∧
    (∀ (a : StackAllocator T ELEMENTS) (b : StackAllocator.rebind T ELEMENTS U) (size : Nat),
      (execBoth w (a, b) [(Side.original, Op.allocate size)]).2.next = b.next ∧
      (execBoth w (a, b) [(Side.rebound, Op.allocate size)]).1.next = a.next) := by
  refine ⟨rfl, fun _ _ => rfl, ?_, fun _ _ _ => ⟨rfl, rfl⟩⟩
  intro a b calls
  rw [execBoth_eq]
  exact ⟨rfl, rfl⟩

/-! ## The scenario of capacity 4 -/

/-- C9: on a freshly constructed arena of 4 elements the calls `allocate(1)`,
`allocate(2)`, `allocate(2)`, `allocate(1)`, `allocate(1)` return `&(data[0])`,
`&(data[1])`, null, `&(data[3])`, null, and `next` is 1, 3, 3, 4, 4 after them
(on every platform whose `std::size_t` has at least 3 bits). -/
theorem scenario_capacity_four {T : Type} (w : Nat) (garbage : Fin 4 → T) (hw : 3 ≤ w) :
    (exec w (StackAllocator.construct garbage)
      [Op.allocate 1, Op.allocate 2, Op.allocate 2, Op.allocate 1, Op.allocate 1]).1 =
      [(1, Ptr.elem 0), (2, Ptr.elem 1), (2, Ptr.null), (1, Ptr.elem 3), (1, Ptr.null)] ∧
    nextTrace w (StackAllocator.construct garbage)
      [Op.allocate 1, Op.allocate 2, Op.allocate 2, Op.allocate 1, Op.allocate 1] =
      [0, 1, 3, 3, 4, 4] := by
  have h8 : 8 ≤ 2 ^ w := by
    calc 8 = 2 ^ 3 := by norm_num
      _ ≤ 2 ^ w := Nat.pow_le_pow_right (by norm_num) hw
  have e1 : 1 % 2 ^ w = 1 := Nat.mod_eq_of_lt (by omega)
  have e3 : 3 % 2 ^ w = 3 := Nat.mod_eq_of_lt (by omega)
  have e4 : 4 % 2 ^ w = 4 := Nat.mod_eq_of_lt (by omega)
  have e5 : 5 % 2 ^ w = 5 := Nat.mod_eq_of_lt (by omega)
  simp [exec, nextTrace, StackAllocator.allocate, StackAllocator.construct, e1, e3, e4, e5]

theorem scenario_capacity_four_witness :
    3 ≤ 64 ∧
    (exec 64 arena4
      [Op.allocate 1, Op.allocate 2, Op.allocate 2, Op.allocate 1, Op.allocate 1]).1 =
      [(1, Ptr.elem 0), (2, Ptr.elem 1), (2, Ptr.null), (1, Ptr.elem 3), (1, Ptr.null)] ∧
    nextTrace 64 arena4
      [Op.allocate 1, Op.allocate 2, Op.allocate 2, Op.allocate 1, Op.allocate 1] =
      [0, 1, 3, 3, 4, 4] :=
  ⟨by decide, scenario_capacity_four 64 (fun _ : Fin 4 => (0 : Int)) (by decide)⟩

/-! ## Regions and the array bounds -/

/-- Without wrap-around (`next + size < 2 ^ w`) a region handed out by `allocate`
lies inside the array: it is `[next, next + size)` with `next + size ≤ ELEMENTS`. -/
theorem allocate_region_in_bounds_of_no_wrap {T : Type} {ELEMENTS : Nat} (w : Nat)
    (a : StackAllocator T ELEMENTS) (size o : Nat) (hw : a.next + size < 2 ^ w)
    (hres : (a.allocate w size).1 = Ptr.elem o) : o = a.next ∧ o + size ≤ ELEMENTS := by
  by_cases hgt : ELEMENTS < (a.next + size) % 2 ^ w
  · rw [allocate_of_gt w a size hgt] at hres
    cases hres
  · have hle := Nat.not_lt.mp hgt
    rw [allocate_of_le w a size hle] at hres
    rw [Nat.mod_eq_of_lt hw] at hle
    have ho : a.next = o := by simpa using hres
    subst ho
    exact ⟨rfl, hle⟩

/-- C10: on a fresh arena of 4 elements (64-bit `std::size_t`), after a successful
`allocate(1)` the call `allocate(2 ^ 64 - 1)` succeeds with offset 1; the region
`[1, 2 ^ 64)` it hands out ends past the 4 elements of `data`, and the two calls
together have handed out `2 ^ 64` elements. -/
theorem region_out_of_bounds_after_wrap :
    (exec 64 arena4 [Op.allocate 1]).2.next = 1 ∧
    ((exec 64 arena4 [Op.allocate 1]).2.allocate 64 (2 ^ 64 - 1)).1 = Ptr.elem 1 ∧
    ¬ (1 + (2 ^ 64 - 1) ≤ 4) ∧
    ((regions (exec 64 arena4 [Op.allocate 1, Op.allocate (2 ^ 64 - 1)]).1).map
      (fun r => r.2)).sum = 2 ^ 64 := by
  decide

/-! ## Single-element allocations -/

/-- After a run of `allocate` calls whose sizes fit into what is left of the arena,
`next` has advanced by the sum of the sizes. -/
theorem exec_allocate_all_next {T : Type} {ELEMENTS : Nat} (w : Nat)
    (hE : ELEMENTS < 2 ^ w) (ns : List Nat) :
    ∀ (a : StackAllocator T ELEMENTS), a.next + ns.sum ≤ ELEMENTS →
      (exec w a (ns.map Op.allocate)).2.next = a.next + ns.sum := by
  induction ns with
  | nil => intro a _; simp [exec_nil]
  | cons m ns ih =>
    intro a hsum
    rw [List.sum_cons] at hsum
    rw [List.map_cons, exec_allocate_cons, allocate_fits w a m hE (by omega)]
    have := ih { a with next := a.next + m } (by show a.next + m + ns.sum ≤ ELEMENTS; omega)
    rw [List.sum_cons]
    simp only [this, Nat.add_assoc]

/-- On a freshly constructed arena, `ELEMENTS` successive calls `allocate(1)` all
succeed, the call number `i` (from 0) returning `&(data[i])`, and leave
`next = ELEMENTS`; after them every request of `n ≥ 1` elements that does not
wrap around (`ELEMENTS + n < 2 ^ w`) is refused with null. -/
theorem single_element_run_fills_arena {T : Type} {ELEMENTS : Nat} (w : Nat)
    (garbage : Fin ELEMENTS → T) (hE : ELEMENTS < 2 ^ w) :
    (exec w (StackAllocator.construct garbage)
      (List.replicate ELEMENTS (Op.allocate 1))).1.length = ELEMENTS ∧
    (∀ i, i < ELEMENTS →
      (exec w (StackAllocator.construct garbage)
        (List.replicate ELEMENTS (Op.allocate 1))).1[i]? = some (1, Ptr.elem i)) ∧
    (exec w (StackAllocator.construct garbage)
      (List.replicate ELEMENTS (Op.allocate 1))).2.next = ELEMENTS ∧
    (∀ n, 1 ≤ n → ELEMENTS + n < 2 ^ w →
      ((exec w (StackAllocator.construct garbage)
        (List.replicate ELEMENTS (Op.allocate 1))).2.allocate w n).1 = Ptr.null) := by
  have hmap : List.replicate ELEMENTS (Op.allocate 1) =
      (List.replicate ELEMENTS 1).map Op.allocate := by simp
  have hsum : (List.replicate ELEMENTS 1).sum = ELEMENTS := by simp
  have h0 : (StackAllocator.construct garbage).next + (List.replicate ELEMENTS 1).sum
      ≤ ELEMENTS := by
    rw [hsum]
    show 0 + ELEMENTS ≤ ELEMENTS
    omega
  have hnext : (exec w (StackAllocator.construct garbage)
      ((List.replicate ELEMENTS 1).map Op.allocate)).2.next = ELEMENTS := by
    rw [exec_allocate_all_next w hE _ _ h0, hsum]
    show 0 + ELEMENTS = ELEMENTS
    omega
  rw [hmap]
  refine ⟨?_, ?_, hnext, ?_⟩
  · rw [exec_allocate_all_length]
    simp
  · intro i hi
    have hget : (List.replicate ELEMENTS 1)[i]? = some 1 := by
      simp [List.getElem?_replicate, hi]
    rw [exec_allocate_all_getElem w hE _ _ h0 i 1 hget]
    have htake : ((List.replicate ELEMENTS 1).take i).sum = i := by
      simp [List.take_replicate, Nat.min_eq_left (Nat.le_of_lt hi)]
    rw [htake]
    show some (1, Ptr.elem (0 + i)) = _
    rw [Nat.zero_add]
  · intro n hn hw
    have hfull := allocate_exhausted_of_no_wrap w
      (exec w (StackAllocator.construct garbage)
        ((List.replicate ELEMENTS 1).map Op.allocate)).2 n
      (by rw [hnext]; exact hw) (by rw [hnext]; omega)
    rw [hfull]

/-- C11: on a fresh arena of 4 elements (64-bit `std::size_t`), 4 successive calls
`allocate(1)` succeed with offsets 0, 1, 2, 3 and leave `next = 4`; the request
`allocate(2 ^ 64 - 4)` that follows has `n ≥ 1` and yet is not refused: it returns
`&(data[4])` and sets `next` to 0, after which one more `allocate(1)` succeeds. -/
theorem full_arena_accepts_wrapping_request :
    (exec 64 arena4 (List.replicate 4 (Op.allocate 1))).1 =
      [(1, Ptr.elem 0), (1, Ptr.elem 1), (1, Ptr.elem 2), (1, Ptr.elem 3)] ∧
    (exec 64 arena4 (List.replicate 4 (Op.allocate 1))).2.next = 4 ∧
    1 ≤ 2 ^ 64 - 4 ∧ 2 ^ 64 - 4 < 2 ^ 64 ∧
    ((exec 64 arena4 (List.replicate 4 (Op.allocate 1))).2.allocate 64 (2 ^ 64 - 4)).1 =
      Ptr.elem 4 ∧
    ((exec 64 arena4 (List.replicate 4 (Op.allocate 1))).2.allocate 64 (2 ^ 64 - 4)).2.next = 0 ∧
    (exec 64 arena4 (List.replicate 4 (Op.allocate 1) ++
      [Op.allocate (2 ^ 64 - 4), Op.allocate 1])).1 =
      [(1, Ptr.elem 0), (1, Ptr.elem 1), (1, Ptr.elem 2), (1, Ptr.elem 3),
        (2 ^ 64 - 4, Ptr.elem 4), (1, Ptr.elem 0)] := by
  decide

/-! ## The vector-like workload -/

/-- In a run of `allocate` calls whose sizes fit into what is left of the arena,
every call returns a pointer into the array. -/
theorem exec_allocate_all_elem {T : Type} {ELEMENTS : Nat} (w : Nat)
    (hE : ELEMENTS < 2 ^ w) (ns : List Nat) :
    ∀ (a : StackAllocator T ELEMENTS), a.next + ns.sum ≤ ELEMENTS →
      ∀ e ∈ (exec w a (ns.map Op.allocate)).1, ∃ o, e.2 = Ptr.elem o := by
  induction ns with
  | nil => intro a _ e he; simp [exec_nil] at he
  | cons m ns ih =>
    intro a hsum e he
    rw [List.sum_cons] at hsum
    rw [List.map_cons, exec_allocate_cons, allocate_fits w a m hE (by omega)] at he
    rcases List.mem_cons.mp he with rfl | he
    · exact ⟨a.next, rfl⟩
    · exact ih { a with next := a.next + m }
        (by show a.next + m + ns.sum ≤ ELEMENTS; omega) e he

/-- In a run of `allocate` calls without wrap-around whose sizes add up to more
than what is left of the arena, some call returns null. -/
theorem exec_allocate_all_null_of_sum_gt {T : Type} {ELEMENTS : Nat} (w : Nat)
    (ns : List Nat) :
    ∀ (a : StackAllocator T ELEMENTS), a.next ≤ ELEMENTS → a.next + ns.sum < 2 ^ w →
      ELEMENTS < a.next + ns.sum →
      ∃ n, (n, Ptr.null) ∈ (exec w a (ns.map Op.allocate)).1 := by
  induction ns with
  | nil =>
    intro a hle _ hgt
    simp only [List.sum_nil, Nat.add_zero] at hgt
    omega
  | cons m ns ih =>
    intro a hle hw hgt
    rw [List.sum_cons] at hw hgt
    rw [List.map_cons, exec_allocate_cons]
    have hm : (a.next + m) % 2 ^ w = a.next + m := Nat.mod_eq_of_lt (by omega)
    by_cases hfull : ELEMENTS < (a.next + m) % 2 ^ w
    · rw [allocate_of_gt w a m hfull]
      exact ⟨m, List.mem_cons_self _ _⟩
    · have hfit : (a.next + m) % 2 ^ w ≤ ELEMENTS := Nat.not_lt.mp hfull
      rw [allocate_of_le w a m hfit, hm]
      rw [hm] at hfit
      obtain ⟨n, hn⟩ := ih { a with next := a.next + m } hfit
        (by show a.next + m + ns.sum < 2 ^ w; omega)
        (by show ELEMENTS < a.next + m + ns.sum; omega)
      exact ⟨n, List.mem_cons_of_mem _ hn⟩

/-- The fuel of `growthRequests` is enough: the last block requested (the final
capacity of the container) can hold the `m` elements. -/
theorem growthRequestsFrom_last_ge (fuel : Nat) :
    ∀ (cap m : Nat), m ≤ cap + fuel →
      m ≤ ((growthRequestsFrom fuel cap m).getLast?).getD cap := by
  induction fuel with
  | zero => intro cap m h; simpa [growthRequestsFrom] using h
  | succ fuel ih =>
    intro cap m h
    by_cases hm : m ≤ cap
    · simp [growthRequestsFrom, hm]
    · have := ih (cap + max cap 1) m (by omega)
      simpa [growthRequestsFrom, hm, List.getLast?_cons] using this

/-- C12: on a freshly constructed arena of `ALLOCATOR_SIZE = 1024 * 1024` elements,
a container that requests blocks of 1, 2, 4, ... elements until it can hold `m`
elements, none of them reclaimed, gets null from some `allocate` call when
`m = ALLOCATOR_SIZE` (the requests are 1, 2, ..., 2 ^ 20), and has all of its 19
`allocate` calls succeed when `m = ALLOCATOR_SIZE / 4` (the requests are
1, 2, ..., 2 ^ 18).  The word has at least 21 bits. -/
theorem vector_growth_full_fails_quarter_fits {T : Type} (w : Nat)
    (garbage : Fin ALLOCATOR_SIZE → T) (hw : 21 ≤ w) :
    growthRequests ALLOCATOR_SIZE = (List.range 21).map (fun k => 2 ^ k) ∧
    (∃ n, (n, Ptr.null) ∈ (exec w (StackAllocator.construct garbage)
      ((growthRequests ALLOCATOR_SIZE).map Op.allocate)).1) ∧
    growthRequests (ALLOCATOR_SIZE / 4) = (List.range 19).map (fun k => 2 ^ k) ∧
    (exec w (StackAllocator.construct garbage)
      ((growthRequests (ALLOCATOR_SIZE / 4)).map Op.allocate)).1.length = 19 ∧
    (∀ e ∈ (exec w (StackAllocator.construct garbage)
      ((growthRequests (ALLOCATOR_SIZE / 4)).map Op.allocate)).1, ∃ o, e.2 = Ptr.elem o) := by
  have h21 : 2 ^ 21 ≤ 2 ^ w := Nat.pow_le_pow_right (by norm_num) hw
  have hsize : ALLOCATOR_SIZE = 1048576 := by decide
  have hE : ALLOCATOR_SIZE < 2 ^ w := by
    rw [hsize]
    have : (1048576 : Nat) < 2 ^ 21 := by norm_num
    omega
  have hfull : (growthRequests ALLOCATOR_SIZE).sum = 2097151 := by decide
  have hquarter : (growthRequests (ALLOCATOR_SIZE / 4)).sum = 524287 := by decide
  have hlen : (growthRequests (ALLOCATOR_SIZE / 4)).length = 19 := by decide
  have h2 : (2 : Nat) ^ 21 = 2097152 := by norm_num
  refine ⟨by decide, ?_, by decide, ?_, ?_⟩
  · apply exec_allocate_all_null_of_sum_gt w
    · exact Nat.zero_le _
    · rw [hfull]
      show 0 + 2097151 < 2 ^ w
      omega
    · rw [hfull]
      show ALLOCATOR_SIZE < 0 + 2097151
      omega
  · rw [exec_allocate_all_length, hlen]
  · apply exec_allocate_all_elem w hE
    rw [hquarter]
    show 0 + 524287 ≤ ALLOCATOR_SIZE
    omega

theorem vector_growth_full_fails_quarter_fits_witness :
    21 ≤ 64 ∧
    (∃ n, (n, Ptr.null) ∈
      (exec 64 (StackAllocator.construct (fun _ => 0) : StackAllocator Int ALLOCATOR_SIZE)
        ((growthRequests ALLOCATOR_SIZE).map Op.allocate)).1) ∧
    (∀ e ∈ (exec 64 (StackAllocator.construct (fun _ => 0) : StackAllocator Int ALLOCATOR_SIZE)
      ((growthRequests (ALLOCATOR_SIZE / 4)).map Op.allocate)).1, ∃ o, e.2 = Ptr.elem o) :=
  have h := vector_growth_full_fails_quarter_fits 64 (fun _ : Fin ALLOCATOR_SIZE => (0 : Int))
    (by decide)
  ⟨by decide, h.2.1, h.2.2.2.2⟩

/-! ## Machine-word arithmetic of the check -/

/-- C13: the check of `allocate` is computed in the unsigned arithmetic of
`std::size_t`, of width `w`: for every value of `next` and every request,
`allocate` succeeds (returns `&(data[next])`, not null) exactly when
`(next + size) mod 2 ^ w ≤ ELEMENTS`; on success `next` becomes
`(next + size) mod 2 ^ w`, on failure the arena is unchanged; and whenever
`next + size < 2 ^ w` the call succeeds exactly when `next + size ≤ ELEMENTS`. -/
theorem allocate_check_is_modular {T : Type} {ELEMENTS : Nat} (w : Nat)
    (a : StackAllocator T ELEMENTS) (size : Nat) :
    ((a.allocate w size).1 ≠ Ptr.null ↔ (a.next + size) % 2 ^ w ≤ ELEMENTS) ∧
    ((a.next + size) % 2 ^ w ≤ ELEMENTS →
      (a.allocate w size).1 = Ptr.elem a.next ∧
      (a.allocate w size).2.next = (a.next + size) % 2 ^ w ∧
      (a.allocate w size).2.data = a.data) ∧
    (¬ (a.next + size) % 2 ^ w ≤ ELEMENTS →
      (a.allocate w size).1 = Ptr.null ∧ (a.allocate w size).2 = a) ∧
    (a.next + size < 2 ^ w →
      ((a.allocate w size).1 ≠ Ptr.null ↔ a.next + size ≤ ELEMENTS)) := by
  have hiff : (a.allocate w size).1 ≠ Ptr.null ↔ (a.next + size) % 2 ^ w ≤ ELEMENTS := by
    by_cases hgt : ELEMENTS < (a.next + size) % 2 ^ w
    · rw [allocate_of_gt w a size hgt]
      simp only [ne_eq, not_true_eq_false, false_iff]
      omega
    · have hle := Nat.not_lt.mp hgt
      rw [allocate_of_le w a size hle]
      simp [hle]
  refine ⟨hiff, ?_, ?_, ?_⟩
  · intro hle
    rw [allocate_of_le w a size hle]
    exact ⟨rfl, rfl, rfl⟩
  · intro hgt
    rw [allocate_of_gt w a size (Nat.lt_of_not_le hgt)]
    exact ⟨rfl, rfl⟩
  · intro hw
    rw [hiff, Nat.mod_eq_of_lt hw]

theorem allocate_check_is_modular_witness :
    ((arena4_used1.allocate 64 (2 ^ 64 - 1)).1 ≠ Ptr.null ↔
      (arena4_used1.next + (2 ^ 64 - 1)) % 2 ^ 64 ≤ 4) ∧
    ((arena4_used1.allocate 64 (2 ^ 64 - 1)).1 = Ptr.elem arena4_used1.next ∧
      (arena4_used1.allocate 64 (2 ^ 64 - 1)).2.next =
        (arena4_used1.next + (2 ^ 64 - 1)) % 2 ^ 64 ∧
      (arena4_used1.allocate 64 (2 ^ 64 - 1)).2.data = arena4_used1.data) ∧
    ((arena4_used1.allocate 64 4).1 = Ptr.null ∧ (arena4_used1.allocate 64 4).2 = arena4_used1) ∧
    ((arena4_used1.allocate 64 3).1 ≠ Ptr.null ↔ arena4_used1.next + 3 ≤ 4) :=
  ⟨(allocate_check_is_modular 64 arena4_used1 (2 ^ 64 - 1)).1,
    (allocate_check_is_modular 64 arena4_used1 (2 ^ 64 - 1)).2.1 (by decide),
    (allocate_check_is_modular 64 arena4_used1 4).2.2.1 (by decide),
    (allocate_check_is_modular 64 arena4_used1 3).2.2.2 (by decide)⟩

/-! ## Requests of size zero -/

/-- C14: a request of size zero never fails.  In every state with
`0 ≤ next ≤ ELEMENTS` (`next` is unsigned, so `0 ≤ next` holds by its type),
`allocate(0)` returns `&(data[next])`, not null, and leaves
the arena, so also `next`, unchanged; on an exhausted arena (`next = ELEMENTS`) the
offset returned is `ELEMENTS`, one past the last slot; and a second `allocate(0)`
right after the first returns the same offset. -/
theorem allocate_zero_never_fails {T : Type} {ELEMENTS : Nat} (w : Nat)
    (a : StackAllocator T ELEMENTS) (hE : ELEMENTS < 2 ^ w) (hhi : a.next ≤ ELEMENTS) :
    (a.allocate w 0).1 ≠ Ptr.null ∧
    (a.allocate w 0).1 = Ptr.elem a.next ∧
    (a.allocate w 0).2.next = a.next ∧
    (a.allocate w 0).2 = a ∧
    (a.next = ELEMENTS → (a.allocate w 0).1 = Ptr.elem ELEMENTS) ∧
    ((a.allocate w 0).2.allocate w 0).1 = (a.allocate w 0).1 ∧
    (exec w a [Op.allocate 0, Op.allocate 0]).1 = [(0, Ptr.elem a.next), (0, Ptr.elem a.next)] := by
  have h : a.allocate w 0 = (Ptr.elem a.next, a) := by
    rw [allocate_fits w a 0 hE (by omega)]
    rfl
  have hexec : (exec w a [Op.allocate 0, Op.allocate 0]).1 =
      [(0, Ptr.elem a.next), (0, Ptr.elem a.next)] := by
    rw [exec_allocate_cons, h, exec_allocate_cons, h, exec_nil]
  rw [h]
  refine ⟨by simp, rfl, rfl, rfl, ?_, ?_, hexec⟩
  · intro hfull
    rw [hfull]
  · show (a.allocate w 0).1 = Ptr.elem a.next
    rw [h]

theorem allocate_zero_never_fails_witness :
    (4 : Nat) < 2 ^ 64 ∧ (exec 64 arena4 [Op.allocate 4]).2.next ≤ 4 ∧
    ((exec 64 arena4 [Op.allocate 4]).2.allocate 64 0).1 = Ptr.elem 4 ∧
    ((exec 64 arena4 [Op.allocate 4]).2.allocate 64 0).1 ≠ Ptr.null ∧
    ((exec 64 arena4 [Op.allocate 4]).2.allocate 64 0).2 = (exec 64 arena4 [Op.allocate 4]).2 :=
  have h := allocate_zero_never_fails 64 (exec 64 arena4 [Op.allocate 4]).2
    (by decide) (by decide)
  ⟨by decide, by decide, h.2.2.2.2.1 (by decide), h.1, h.2.2.2.1⟩

end StackAlloc
